import Mathlib

/-!
Shallow embedding of the job-orchestration core of `rom_converter.py`
(a bulk disc-image to CHD converter), together with theorems checking the
natural-language specification against the code.

Conventions.  Python strings are modelled as Lean `String` / `List Char`;
the filesystem is an explicit value (lists of paths with sizes and textual
contents); external processes (chdman, 7-Zip) are oracles passed in as
parameters; all side effects are reified as explicit event lists.  The
regular expressions appearing in the source are implemented directly as
character-list scanners with Python `re` semantics (leftmost,
non-overlapping matches, greedy character classes).
-/

namespace RomConverter

/-- Python `\s` on the ASCII range: the whitespace class used by `re`. -/
def isSpaceChar (c : Char) : Bool :=
  c = ' ' || c = '\t' || c = '\n' || c = '\x0b' || c = '\x0c' || c = '\r'

/-- Python `\d` on the ASCII range. -/
def isDigitChar (c : Char) : Bool :=
  '0' ≤ c && c ≤ '9'

/-- Case-insensitive character comparison, as under `re.IGNORECASE`. -/
def ciEq (a b : Char) : Bool :=
  a.toLower = b.toLower

/-- One attempted match of `\s*\([^)]+\)` anchored at the head of the list
(`re.sub(r'\s*\([^)]+\)', '', name)`): greedy whitespace, an opening
parenthesis, one or more non-`)` characters, a closing parenthesis.
Returns the remainder after the match, or `none` if there is no match
starting here. -/
def matchParenTag (cs : List Char) : Option (List Char) :=
  match cs.dropWhile isSpaceChar with
  | '(' :: r2 =>
    match r2.dropWhile (fun c => !(c = ')')) with
    | ')' :: r4 =>
      if (r2.takeWhile (fun c => !(c = ')'))).isEmpty then none else some r4
    | _ => none
  | _ => none

/-- `re.sub(r'\\s*\\([^)]+\\)', '', name)`: remove every leftmost
non-overlapping match of the parenthetical-tag pattern.  The fuel argument
only drives structural recursion; `fuel = cs.length` always suffices since
every step consumes at least one character. -/
def parenSubAux : Nat → List Char → List Char
  | 0, cs => cs
  | _ + 1, [] => []
  | fuel + 1, c :: cs =>
    match matchParenTag (c :: cs) with
    | some rest => parenSubAux fuel rest
    | none => c :: parenSubAux fuel cs

def parenSub (cs : List Char) : List Char :=
  parenSubAux cs.length cs

/-- One attempted match of `\\s*\\[[^\\]]+\\]` anchored at the head
(`re.sub(r'\\s*\\[[^\\]]+\\]', '', name)`). -/
def matchBracketTag (cs : List Char) : Option (List Char) :=
  match cs.dropWhile isSpaceChar with
  | '[' :: r2 =>
    match r2.dropWhile (fun c => !(c = ']')) with
    | ']' :: r4 =>
      if (r2.takeWhile (fun c => !(c = ']'))).isEmpty then none else some r4
    | _ => none
  | _ => none

/-- `re.sub(r'\\s*\\[[^\\]]+\\]', '', name)`. -/
def bracketSubAux : Nat → List Char → List Char
  | 0, cs => cs
  | _ + 1, [] => []
  | fuel + 1, c :: cs =>
    match matchBracketTag (c :: cs) with
    | some rest => bracketSubAux fuel rest
    | none => c :: bracketSubAux fuel cs

def bracketSub (cs : List Char) : List Char :=
  bracketSubAux cs.length cs

/-- `re.sub(r'\\s+', ' ', name)`: collapse each maximal whitespace run to a
single space. -/
def wsSubAux : Nat → List Char → List Char
  | 0, cs => cs
  | _ + 1, [] => []
  | fuel + 1, c :: cs =>
    if isSpaceChar c then ' ' :: wsSubAux fuel (cs.dropWhile isSpaceChar)
    else c :: wsSubAux fuel cs

def wsSub (cs : List Char) : List Char :=
  wsSubAux cs.length cs

/-- Python `str.strip()` restricted to whitespace. -/
def stripWs (cs : List Char) : List Char :=
  ((cs.dropWhile isSpaceChar).reverse.dropWhile isSpaceChar).reverse

/-- One attempted match of `\(Disc\s*\d+\)` (IGNORECASE) anchored at the
head of the list; returns the matched text (`group(0)`). -/
def matchDiscAt (cs : List Char) : Option (List Char) :=
  match cs with
  | '(' :: d :: i :: s :: c :: r2 =>
    if ciEq d 'd' && ciEq i 'i' && ciEq s 's' && ciEq c 'c' then
      let ws := r2.takeWhile isSpaceChar
      let r3 := r2.dropWhile isSpaceChar
      let ds := r3.takeWhile isDigitChar
      let r4 := r3.dropWhile isDigitChar
      if ds.isEmpty then none
      else
        match r4 with
        | ')' :: _ => some ('(' :: d :: i :: s :: c :: (ws ++ ds ++ [')']))
        | _ => none
    else none
  | _ => none

/-- `re.search(r'\(Disc\s*\d+\)', name, flags=re.IGNORECASE)`: text of the
leftmost match, if any. -/
def discSearch : List Char → Option (List Char)
  | [] => none
  | c :: cs =>
    match matchDiscAt (c :: cs) with
    | some m => some m
    | none => discSearch cs

/-- `clean_game_name` from the source: preserve the first `(Disc N)` tag,
strip every other parenthetical tag and every bracketed tag, normalise
whitespace, then re-append the disc tag. -/
def clean_game_name (s : String) : String :=
  let name0 := s.data
  let discTag := (discSearch name0).getD []
  let name1 := parenSub name0
  let name2 := bracketSub name1
  let name3 := stripWs (wsSub name2)
  let res := if discTag.isEmpty then name3 else name3 ++ ' ' :: discTag
  String.mk res

/-! ## Paths and the filesystem model -/

/-- `Path.name`: the component after the last `/`. -/
def pathName (p : String) : String :=
  String.mk ((p.data.reverse.takeWhile (fun c => !(c = '/'))).reverse)

/-- `Path.parent` as a string: the part before the last `/`, or `"."` when
the path has a single component. -/
def parentDir (p : String) : String :=
  match p.data.reverse.dropWhile (fun c => !(c = '/')) with
  | '/' :: restRev => String.mk restRev.reverse
  | _ => "."

/-- `dir / name` for the simple relative names appearing in descriptors. -/
def joinPath (dir name : String) : String :=
  dir ++ "/" ++ name

/-- Split a file name at its last dot: `(stem, suffix-with-dot)`;
no dot gives an empty suffix (`PurePath.stem` / `PurePath.suffix`). -/
def splitLastDot (nm : List Char) : List Char × List Char :=
  let rev := nm.reverse
  match rev.dropWhile (fun c => !(c = '.')) with
  | '.' :: stemRev => (stemRev.reverse, '.' :: (rev.takeWhile (fun c => !(c = '.'))).reverse)
  | _ => (nm, [])

/-- `Path.stem` of the final component. -/
def pathStem (p : String) : String :=
  String.mk (splitLastDot (pathName p).data).1

/-- `Path.suffix` of the final component (with the dot). -/
def pathSuffix (p : String) : String :=
  String.mk (splitLastDot (pathName p).data).2

/-- `path.suffix.lower()`. -/
def suffixLower (p : String) : String :=
  String.mk ((splitLastDot (pathName p).data).2.map Char.toLower)

/-- `Path.with_suffix`: replace the final component's suffix. -/
def with_suffix (p : String) (suf : String) : String :=
  let dirRev := p.data.reverse.dropWhile (fun c => !(c = '/'))
  String.mk (dirRev.reverse ++ (splitLastDot (pathName p).data).1 ++ suf.data)

/-- One file of the modelled filesystem: a path, a byte size, and (for
track-list descriptors) its textual content. -/
structure FSFile where
  path : String
  size : Nat
  text : String
deriving DecidableEq

/-- The filesystem visible to one run: the set of existing files. -/
structure FS where
  files : List FSFile
deriving DecidableEq

/-- `Path.exists()`. -/
def FS.existsPath (fs : FS) (p : String) : Bool :=
  fs.files.any (fun f => f.path = p)

/-- Reading a file's text (`open(...).read()`); a missing file reads as
empty, matching the code's catch-all that turns a read failure into an
empty match list. -/
def FS.textOf (fs : FS) (p : String) : String :=
  match fs.files.find? (fun f => f.path = p) with
  | some f => f.text
  | none => ""

/-! ## Sidecar resolver: `parse_cue_file` -/

/-- One attempted match of `FILE\s+"([^\"]+)"\s+BINARY` (IGNORECASE)
anchored at the head; returns the captured filename and the remainder
after the whole match. -/
def matchCueEntryAt (cs : List Char) : Option (List Char × List Char) :=
  match cs with
  | f :: i :: l :: e :: r =>
    if ciEq f 'f' && ciEq i 'i' && ciEq l 'l' && ciEq e 'e' then
      let ws1 := r.takeWhile isSpaceChar
      let r1 := r.dropWhile isSpaceChar
      if ws1.isEmpty then none
      else
        match r1 with
        | '"' :: r2 =>
          let nm := r2.takeWhile (fun c => !(c = '"'))
          let r3 := r2.dropWhile (fun c => !(c = '"'))
          if nm.isEmpty then none
          else
            match r3 with
            | '"' :: r4 =>
              let ws2 := r4.takeWhile isSpaceChar
              let r5 := r4.dropWhile isSpaceChar
              if ws2.isEmpty then none
              else
                match r5 with
                | b :: i2 :: n :: a :: r6 :: y :: rest =>
                  if ciEq b 'b' && ciEq i2 'i' && ciEq n 'n' && ciEq a 'a' &&
                      ciEq r6 'r' && ciEq y 'y' then
                    some (nm, rest)
                  else none
                | _ => none
            | _ => none
        | _ => none
    else none
  | _ => none

/-- `re.findall` for the cue FILE pattern: leftmost, non-overlapping
matches, capture group 1 of each. -/
def findallCueEntriesAux : Nat → List Char → List (List Char)
  | 0, _ => []
  | _ + 1, [] => []
  | fuel + 1, c :: cs =>
    match matchCueEntryAt (c :: cs) with
    | some (nm, rest) => nm :: findallCueEntriesAux fuel rest
    | none => findallCueEntriesAux fuel cs

def findallCueEntries (content : String) : List String :=
  (findallCueEntriesAux content.data.length content.data).map String.mk

/-- `parse_cue_file`: parse the descriptor's text, resolve each referenced
name against the descriptor's directory, and keep exactly the references
whose file exists; a missing reference is only logged, producing no
entry. -/
def parse_cue_file (fs : FS) (cue_path : String) : List String :=
  let cue_dir := parentDir cue_path
  (findallCueEntries (fs.textOf cue_path)).filterMap (fun m =>
    let bin_path := joinPath cue_dir m
    if fs.existsPath bin_path then some bin_path else none)

/-! ## Conversion pipeline: `convert_to_chd` and postprocessing -/

/-- Reified side effects of a run. -/
inductive Ev where
  | invoke (mode : String) (input : String) (output : String)
  | deleteFile (path : String)
  | moveFile (src : String) (dst : String)
  | copyFile (src : String) (dst : String)
  | extractArchive (archive : String)
deriving DecidableEq

/-- Result of one external `chdman` invocation, as observed by the code:
`created` means return code 0 with the output file present. -/
inductive ConvOutcome where
  | created (chdSize : Nat)
  | failed
  | timedOut
deriving DecidableEq

/-- The external converter as an oracle from input path to outcome. -/
def ConvOracle := String → ConvOutcome

/-- `convert_to_chd`: derive the output path by replacing the suffix with
`.chd`; if it already exists, return success immediately with no external
invocation; otherwise invoke `chdman` in the mode selected by the
descriptor kind, succeeding only on `created`. -/
def convert_to_chd (conv : ConvOracle) (fs : FS) (path : String) : Bool × List Ev :=
  let chd_path := with_suffix path ".chd"
  if fs.existsPath chd_path then (true, [])
  else if suffixLower path = ".cue" then
    match conv path with
    | ConvOutcome.created _ => (true, [Ev.invoke "createcd" path chd_path])
    | _ => (false, [Ev.invoke "createcd" path chd_path])
  else if suffixLower path = ".iso" then
    match conv path with
    | ConvOutcome.created _ => (true, [Ev.invoke "createdvd" path chd_path])
    | _ => (false, [Ev.invoke "createdvd" path chd_path])
  else (false, [])

/-- `delete_original_files`: delete each referenced sidecar that exists,
then the descriptor itself. -/
def delete_original_files (fs : FS) (cue_path : String) : List Ev :=
  ((parse_cue_file fs cue_path).filter (fun b => fs.existsPath b)).map Ev.deleteFile
    ++ (if fs.existsPath cue_path then [Ev.deleteFile cue_path] else [])

/-- Candidate backup destination `backup_dir / f"{stem}_{counter}{suffix}"`. -/
def underscoreDest (backup_dir stem suffix : String) (counter : Nat) : String :=
  backup_dir ++ "/" ++ stem ++ "_" ++ toString counter ++ suffix

/-- The `while dest.exists()` loop of `move_to_backup_folder`, with
explicit fuel driving the recursion (the loop itself is unbounded; every
run of interest terminates within `occupied.length + 1` probes). -/
def resolveBackupDest (occupied : List String) (backup_dir stem suffix : String) :
    Nat → String → Nat → Option String
  | 0, _, _ => none
  | fuel + 1, dest, counter =>
    if dest ∈ occupied then
      resolveBackupDest occupied backup_dir stem suffix fuel
        (underscoreDest backup_dir stem suffix counter) (counter + 1)
    else some dest

/-- State threaded through the backup-move loop: the set of occupied
paths (originals not yet moved plus files already placed in the backup
folder) and the moves performed so far. -/
structure MoveState where
  occupied : List String
  evs : List Ev
deriving DecidableEq

/-- Move one original into the backup folder, resolving destination
collisions with the `_{counter}` scheme. -/
def moveOneToBackup (backup_dir : String) (st : MoveState) (src : String) :
    Option MoveState :=
  if src ∈ st.occupied then
    match resolveBackupDest st.occupied backup_dir (pathStem src) (pathSuffix src)
        (st.occupied.length + 1) (backup_dir ++ "/" ++ pathName src) 1 with
    | some dest =>
      some ⟨st.occupied.erase src ++ [dest], st.evs ++ [Ev.moveFile src dest]⟩
    | none => none
  else some st

/-- `move_to_backup_folder`: move every referenced sidecar, then the
descriptor, into `parent/original_backup`, never overwriting an existing
name.  `none` only when the modelled fuel for a collision loop runs out,
which no reachable state produces. -/
def move_to_backup_folder (fs : FS) (cue_path : String) : Option (List Ev) :=
  let backup_dir := parentDir cue_path ++ "/original_backup"
  let bins := parse_cue_file fs cue_path
  let st0 : MoveState := ⟨fs.files.map (fun f => f.path), []⟩
  match bins.foldlM (moveOneToBackup backup_dir) st0 with
  | none => none
  | some st1 =>
    match moveOneToBackup backup_dir st1 cue_path with
    | none => none
    | some st2 => some st2.evs

/-- Per-run configuration consumed by one worker. -/
structure RunCfg where
  is_converting : Bool
  delete_originals : Bool
  move_to_backup : Bool
deriving DecidableEq

/-- `process_single_file`: observe the cancellation flag before doing
anything; convert; on a success return (genuine or skip-because-exists)
apply the configured postprocessing policy. -/
def process_single_file (conv : ConvOracle) (cfg : RunCfg) (fs : FS)
    (cue_file : String) : Option Bool × List Ev :=
  if !cfg.is_converting then (none, [])
  else
    let r := convert_to_chd conv fs cue_file
    let post : List Ev :=
      if r.1 then
        if cfg.delete_originals then delete_original_files fs cue_file
        else if cfg.move_to_backup then (move_to_backup_folder fs cue_file).getD []
        else []
      else []
    (some r.1, r.2 ++ post)

/-! ## Descriptor scanner and compressed-file discovery -/

/-- Lexicographic order on character lists: the deterministic total order
by which the embedding sorts paths (Python sorts `Path` objects; any fixed
total order gives the same sortedness/determinism guarantees). -/
def lexLe : List Char → List Char → Bool
  | [], _ => true
  | _ :: _, [] => false
  | a :: as, b :: bs => if a = b then lexLe as bs else decide (a < b)

def pathLe (a b : String) : Bool :=
  lexLe a.data b.data

/-- `pathLe` as a binary relation, for use with `List.insertionSort`. -/
def pathLeR (a b : String) : Prop :=
  pathLe a b = true

instance : DecidableRel pathLeR := fun a b =>
  inferInstanceAs (Decidable (pathLe a b = true))

theorem lexLe_total : ∀ as bs : List Char, lexLe as bs = true ∨ lexLe bs as = true := by
  intro as
  induction as with
  | nil => intro bs; left; simp [lexLe]
  | cons a as ih =>
    intro bs
    cases bs with
    | nil => right; simp [lexLe]
    | cons b bs =>
      by_cases hab : a = b
      · subst hab
        rcases ih bs with h | h
        · left; simpa [lexLe] using h
        · right; simpa [lexLe] using h
      · rcases lt_trichotomy a b with h | h | h
        · left; simp [lexLe, hab, h]
        · exact absurd h hab
        · right
          have hba : ¬b = a := fun e => hab e.symm
          simp [lexLe, hba, h]

theorem lexLe_trans : ∀ as bs cs : List Char,
    lexLe as bs = true → lexLe bs cs = true → lexLe as cs = true := by
  intro as
  induction as with
  | nil => intro bs cs h1 h2; simp [lexLe]
  | cons a as ih =>
    intro bs cs h1 h2
    cases bs with
    | nil => simp [lexLe] at h1
    | cons b bs =>
      cases cs with
      | nil => simp [lexLe] at h2
      | cons c cs =>
        by_cases hab : a = b <;> by_cases hbc : b = c
        · subst hab; subst hbc
          simp only [lexLe, if_pos rfl] at h1 h2 ⊢
          exact ih bs cs h1 h2
        · subst hab
          have hac : a < c := by simpa [lexLe, hbc] using h2
          simp [lexLe, hbc, hac]
        · subst hbc
          have hab2 : a < b := by simpa [lexLe, hab] using h1
          simp [lexLe, hab, hab2]
        · have hb1 : a < b := by simpa [lexLe, hab] using h1
          have hb2 : b < c := by simpa [lexLe, hbc] using h2
          have hac : a < c := lt_trans hb1 hb2
          have hne : ¬a = c := ne_of_lt hac
          simp [lexLe, hne, hac]

instance : IsTotal String pathLeR :=
  ⟨fun a b => lexLe_total a.data b.data⟩

instance : IsTrans String pathLeR :=
  ⟨fun a b c => lexLe_trans a.data b.data c.data⟩

/-- `fnmatch` of a name against the pattern `"*" ++ ext`: the name ends
with `ext`. -/
def matchesExt (p ext : String) : Bool :=
  ext.data.isSuffixOf p.data

/-- One scan root: the files directly in the root directory and the files
of the whole subtree (a flattened directory tree; `glob` sees the former,
`rglob` the latter). -/
structure ScanRoot where
  topFiles : List String
  subtreeFiles : List String
deriving DecidableEq

/-- The file population a (r)glob pattern is matched against. -/
def sourceFiles (t : ScanRoot) (recursive : Bool) : List String :=
  if recursive then t.subtreeFiles else t.topFiles

/-- `find_game_files`: collect `*.cue` when PS1 processing is enabled and
`*.iso` when PS2 processing is enabled, then sort for a stable order. -/
def find_game_files (t : ScanRoot) (recursive ps1 ps2 : Bool) : List String :=
  ((if ps1 then (sourceFiles t recursive).filter (fun p => matchesExt p ".cue") else []) ++
   (if ps2 then (sourceFiles t recursive).filter (fun p => matchesExt p ".iso") else [])).insertionSort pathLeR

/-- `COMPRESSED_EXTENSIONS`.  The source stores these in a Python set, so
iteration order is unspecified; every property proved below is
order-independent (a statement about element counts). -/
def COMPRESSED_EXTENSIONS : List String :=
  [".zip", ".7z", ".rar", ".gz", ".tar", ".tar.gz", ".tgz"]

/-- `find_compressed_files`: one (r)glob per extension pattern, results
concatenated, then sorted.  A file matching several patterns therefore
appears once per matching pattern. -/
def find_compressed_files (t : ScanRoot) (recursive : Bool) : List String :=
  (COMPRESSED_EXTENSIONS.flatMap (fun ext =>
    (sourceFiles t recursive).filter (fun p => matchesExt p ext))).insertionSort pathLeR

/-- `extract_all_archives` restricted to what the claims observe: it calls
`extract_archive` once per entry of `find_compressed_files`, so the
attempt trace is one extraction event per entry. -/
def extract_all_archives (t : ScanRoot) (recursive : Bool) : List Ev :=
  (find_compressed_files t recursive).map Ev.extractArchive

/-! ## Run start, collection loop, metrics -/

/-- The user-facing configuration read by `start_conversion`. -/
structure AppConfig where
  valid_source_dir : Bool
  delete_originals : Bool
  move_to_backup : Bool
  confirm_delete : Bool
  extract_compressed : Bool
  recursive : Bool
  process_ps1_cues : Bool
  process_ps2_isos : Bool
deriving DecidableEq

inductive StartOutcome where
  | invalidDir
  | conflictingOptions
  | deletionNotConfirmed
  | started
deriving DecidableEq

/-- The event trace of `conversion_thread`: optional archive extraction,
then one pipeline execution per discovered descriptor (jobs touch
disjoint files, so the trace is modelled job-by-job against the scan-time
filesystem). -/
def conversion_thread_events (conv : ConvOracle) (cfg : AppConfig) (fs : FS)
    (t : ScanRoot) : List Ev :=
  (if cfg.extract_compressed then extract_all_archives t cfg.recursive else []) ++
  (find_game_files t cfg.recursive cfg.process_ps1_cues cfg.process_ps2_isos).flatMap
    (fun f => (process_single_file conv ⟨true, cfg.delete_originals, cfg.move_to_backup⟩ fs f).2)

/-- `start_conversion`: validate the directory, then reject conflicting
postprocessing options, then require confirmation for deletion — each
refusal happens before the worker thread is started, so a refused run
produces no events at all. -/
def start_conversion (conv : ConvOracle) (cfg : AppConfig) (fs : FS)
    (t : ScanRoot) : StartOutcome × List Ev :=
  if !cfg.valid_source_dir then (StartOutcome.invalidDir, [])
  else if cfg.delete_originals && cfg.move_to_backup then
    (StartOutcome.conflictingOptions, [])
  else if cfg.delete_originals && !cfg.confirm_delete then
    (StartOutcome.deletionNotConfirmed, [])
  else (StartOutcome.started, conversion_thread_events conv cfg fs t)

/-- The `as_completed` collection loop of `conversion_thread`, as the
tally `(successful, failed)` it accumulates.  Each list element is one
loop iteration in completion order: the future's result (`none` when the
worker saw the cancellation flag before starting) paired with the
`is_converting` value observed at the top of the iteration; a `false`
observation breaks out of the loop immediately, before consuming that
iteration's result. -/
def conversion_tally : List (Option Bool × Bool) → Nat × Nat
  | [] => (0, 0)
  | (res, flag) :: rest =>
    if !flag then (0, 0)
    else
      match res with
      | none => conversion_tally rest
      | some true => ((conversion_tally rest).1 + 1, (conversion_tally rest).2)
      | some false => ((conversion_tally rest).1, (conversion_tally rest).2 + 1)

/-- The ETA computation of `update_metrics`, over exact rationals:
`avg_time` is the mean recorded duration (0 when no samples), and the ETA
is published only when `avg_time` is truthy, i.e. nonzero. -/
def update_metrics_eta (durations : List ℚ) (total completed cpu_cores : ℕ) :
    Option ℚ :=
  let avg_time : ℚ := if durations.isEmpty then 0 else durations.sum / durations.length
  let remaining : ℤ := max ((total : ℤ) - (completed : ℤ)) 0
  if avg_time = 0 then none
  else some (avg_time * ((remaining : ℚ) / ((max cpu_cores 1 : ℕ) : ℚ)))

/-! ## CHD move dialog: `execute_move` -/

/-- `s.rsplit('.', 1)[0]`. -/
def rsplitDotHead (s : String) : String :=
  match s.data.reverse.dropWhile (fun c => !(c = '.')) with
  | '.' :: stemRev => String.mk stemRev.reverse
  | _ => s

/-- Candidate destination `dest_path / f"{base_name} ({counter}).chd"`. -/
def parenDest (dest_dir base_name : String) (counter : Nat) : String :=
  dest_dir ++ "/" ++ base_name ++ " (" ++ toString counter ++ ").chd"

/-- The `while dest_file.exists()` loop of `execute_move`, with explicit
fuel driving the recursion. -/
def resolveChdDest (occupied : List String) (dest_dir new_name : String) :
    Nat → String → Nat → Option String
  | 0, _, _ => none
  | fuel + 1, dest, counter =>
    if dest ∈ occupied then
      resolveChdDest occupied dest_dir new_name fuel
        (parenDest dest_dir (rsplitDotHead new_name) counter) (counter + 1)
    else some dest

/-- State threaded through the CHD move loop. -/
structure ChdMoveState where
  occupied : List String
  evs : List Ev
deriving DecidableEq

/-- Move (or copy) one CHD file into the destination folder, cleaning the
name when requested and resolving collisions with the `(counter)`
scheme. -/
def execute_move_one (remove_locale copy_instead : Bool) (dest_dir : String)
    (st : ChdMoveState) (chd : String) : Option ChdMoveState :=
  let new_name :=
    if remove_locale then clean_game_name (pathStem chd) ++ ".chd" else pathName chd
  match resolveChdDest st.occupied dest_dir new_name (st.occupied.length + 1)
      (dest_dir ++ "/" ++ new_name) 1 with
  | none => none
  | some dest =>
    if copy_instead then
      some ⟨st.occupied ++ [dest], st.evs ++ [Ev.copyFile chd dest]⟩
    else
      some ⟨st.occupied.erase chd ++ [dest], st.evs ++ [Ev.moveFile chd dest]⟩

/-- `execute_move`: process every found CHD file in order against the
live set of occupied paths. -/
def execute_move (remove_locale copy_instead : Bool) (dest_dir : String)
    (occupied0 : List String) (found_files : List String) : Option (List Ev) :=
  (found_files.foldlM (execute_move_one remove_locale copy_instead dest_dir)
    ⟨occupied0, []⟩).map (fun st => st.evs)

/-! ## Concrete fixtures used by counterexamples and witnesses -/

/-- A track-list descriptor text referencing three auxiliary files. -/
def exCueText : String :=
  "FILE \"a.bin\" BINARY\n  TRACK 01 MODE2/2352\nfile \"b.bin\" binary\nFILE \"c.bin\" BINARY\n"

/-- Filesystem with the descriptor and two of its three referenced
sidecars (`c.bin` is missing); no output CHD yet. -/
def exFS : FS :=
  ⟨[⟨"dir/game.cue", 100, exCueText⟩, ⟨"dir/a.bin", 500, ""⟩, ⟨"dir/b.bin", 600, ""⟩]⟩

/-- Same filesystem with the output CHD already present. -/
def exFSChd : FS :=
  ⟨[⟨"dir/game.cue", 100, exCueText⟩, ⟨"dir/a.bin", 500, ""⟩, ⟨"dir/b.bin", 600, ""⟩,
    ⟨"dir/game.chd", 50, ""⟩]⟩

/-- An external converter that always succeeds. -/
def oracleAllOk : ConvOracle := fun _ => ConvOutcome.created 7

/-- Worker configuration: running, delete-originals enabled. -/
def cfgDeleteOn : RunCfg := ⟨true, true, false⟩

/-- Worker configuration: running, move-to-backup enabled. -/
def cfgMoveOn : RunCfg := ⟨true, false, true⟩

/-- Worker configuration: cancellation already observed. -/
def cfgStopped : RunCfg := ⟨false, false, true⟩

/-- A scan root with one `.tar.gz` archive. -/
def exRoot : ScanRoot := ⟨["r/x.tar.gz"], ["r/x.tar.gz"]⟩

/-- App configuration with both postprocessing options enabled. -/
def cfgBothOptions : AppConfig := ⟨true, true, true, true, true, true, true, true⟩

/-! ## Claims -/

/-- Claim C4, counterexample.  Applied to the full filename
`"Game (USA) (Rev 1) [!] (Disc 2).chd"` the transform yields
`"Game.chd (Disc 2)"` (the preserved disc tag is re-appended after the
extension), not `"Game (Disc 2).chd"`; and the transform is not
idempotent on all inputs: on `"a (Disc 2) b("` a second application
changes the result again. -/
theorem C4_counterexample :
    clean_game_name "Game (USA) (Rev 1) [!] (Disc 2).chd" ≠ "Game (Disc 2).chd" ∧
    clean_game_name (clean_game_name "a (Disc 2) b(") ≠ clean_game_name "a (Disc 2) b(" := by
  decide

/-- Claim C4, amended.  The transform applied to the stem
`"Game (USA) (Rev 1) [!] (Disc 2)"` yields `"Game (Disc 2)"` — so the
move dialog, which applies it to the stem and re-appends `".chd"`,
produces the spec's `"Game (Disc 2).chd"` — while applied to the full
filename it yields `"Game.chd (Disc 2)"`; a second application is the
identity on these two inputs (though not on all inputs). -/
theorem C4_amended :
    clean_game_name "Game (USA) (Rev 1) [!] (Disc 2)" = "Game (Disc 2)" ∧
    clean_game_name (pathStem "dir/Game (USA) (Rev 1) [!] (Disc 2).chd") ++ ".chd" =
      "Game (Disc 2).chd" ∧
    clean_game_name "Game (USA) (Rev 1) [!] (Disc 2).chd" = "Game.chd (Disc 2)" ∧
    clean_game_name (clean_game_name "Game (USA) (Rev 1) [!] (Disc 2)") =
      clean_game_name "Game (USA) (Rev 1) [!] (Disc 2)" ∧
    clean_game_name (clean_game_name "Game (USA) (Rev 1) [!] (Disc 2).chd") =
      clean_game_name "Game (USA) (Rev 1) [!] (Disc 2).chd" := by
  decide

/-- Claim C5: when both delete-originals and move-to-backup are enabled,
`start_conversion` refuses the run before the worker thread exists — no
extraction, no scan, no converter invocation, no file modification: the
event trace is empty. -/
theorem C5_conflicting_options_refused (conv : ConvOracle) (cfg : AppConfig)
    (fs : FS) (t : ScanRoot)
    (hd : cfg.delete_originals = true) (hm : cfg.move_to_backup = true) :
    (start_conversion conv cfg fs t).1 ≠ StartOutcome.started ∧
    (start_conversion conv cfg fs t).2 = [] := by
  unfold start_conversion
  cases hv : cfg.valid_source_dir <;> simp [hd, hm]

/-- Claim C5, witness at a concrete conflicting configuration. -/
theorem C5_witness :
    cfgBothOptions.delete_originals = true ∧ cfgBothOptions.move_to_backup = true ∧
    ((start_conversion oracleAllOk cfgBothOptions exFS exRoot).1 ≠ StartOutcome.started ∧
     (start_conversion oracleAllOk cfgBothOptions exFS exRoot).2 = []) :=
  ⟨by decide, by decide,
   C5_conflicting_options_refused oracleAllOk cfgBothOptions exFS exRoot
     (by decide) (by decide)⟩

/-- Claim C9, counterexample.  A tick with one completed job whose
recorded duration is zero: the mean is zero, so the code publishes no ETA
(`None`), while the claimed formula gives the value 0.  The guard is on a
nonzero mean, not on having at least one completed job. -/
theorem C9_counterexample :
    update_metrics_eta [0] 2 1 4 = none ∧
    update_metrics_eta [0] 2 1 4 ≠
      some (([(0 : ℚ)].sum / ([(0 : ℚ)].length : ℚ)) * ((1 : ℚ) / (4 : ℚ))) := by
  constructor
  · simp [update_metrics_eta]
  · simp [update_metrics_eta]

/-- Claim C9, amended: at every tick whose recorded duration samples are
nonempty with nonzero sum (hence nonzero mean), the published ETA equals
mean duration × (jobs remaining / pool concurrency), with jobs remaining
clamped at zero; a zero mean publishes no ETA instead. -/
theorem C9_amended (durations : List ℚ) (total completed cpu_cores : ℕ)
    (hne : durations ≠ []) (hsum : durations.sum ≠ 0) :
    update_metrics_eta durations total completed cpu_cores =
      some ((durations.sum / (durations.length : ℚ)) *
        (((max ((total : ℤ) - (completed : ℤ)) 0 : ℤ) : ℚ) /
          ((max cpu_cores 1 : ℕ) : ℚ))) := by
  have h0 : durations.length ≠ 0 := fun h => hne (List.length_eq_zero.mp h)
  have hlen : (durations.length : ℚ) ≠ 0 := Nat.cast_ne_zero.mpr h0
  unfold update_metrics_eta
  have hemp : durations.isEmpty = false := by
    cases durations with
    | nil => exact absurd rfl hne
    | cons a l => rfl
  rw [hemp]
  simp only [Bool.false_eq_true, if_false]
  have havg : durations.sum / (durations.length : ℚ) ≠ 0 :=
    div_ne_zero hsum hlen
  rw [if_neg havg]

/-- Claim C9, witness: one completed job of duration 2, three jobs total,
two cores. -/
theorem C9_witness :
    (([(2 : ℚ)] : List ℚ) ≠ [] ∧ ([(2 : ℚ)].sum ≠ 0)) ∧
    update_metrics_eta [2] 3 1 2 =
      some (([(2 : ℚ)].sum / (([(2 : ℚ)].length : ℕ) : ℚ)) *
        (((max ((3 : ℤ) - (1 : ℤ)) 0 : ℤ) : ℚ) / ((max 2 1 : ℕ) : ℚ))) :=
  ⟨⟨by decide, by simp⟩, C9_amended [2] 3 1 2 (by decide) (by simp)⟩

/-- Classifier: is this event an external-converter invocation? -/
def Ev.isInvoke : Ev → Bool
  | Ev.invoke _ _ _ => true
  | _ => false

/-- Skip-because-exists in `convert_to_chd`: when the derived output path
already exists, the call returns success with no events at all. -/
theorem convert_to_chd_skip (conv : ConvOracle) (fs : FS) (path : String)
    (h : fs.existsPath (with_suffix path ".chd") = true) :
    convert_to_chd conv fs path = (true, []) := by
  unfold convert_to_chd
  simp [h]

/-- Every event of `delete_original_files` is a deletion. -/
theorem delete_original_files_no_invoke (fs : FS) (p : String) :
    ∀ e ∈ delete_original_files fs p, e.isInvoke = false := by
  intro e he
  unfold delete_original_files at he
  rcases List.mem_append.mp he with h | h
  · rcases List.mem_map.mp h with ⟨b, _, rfl⟩
    rfl
  · by_cases hex : fs.existsPath p = true
    · simp [hex] at h
      subst h
      rfl
    · simp [hex] at h

/-- Every event added by one backup move is a file move. -/
theorem moveOneToBackup_evs {bd : String} {st st' : MoveState} {src : String}
    (h : moveOneToBackup bd st src = some st') :
    ∀ e ∈ st'.evs, e ∈ st.evs ∨ ∃ s d, e = Ev.moveFile s d := by
  intro e he
  unfold moveOneToBackup at h
  by_cases hm : src ∈ st.occupied
  · rw [if_pos hm] at h
    cases hr : resolveBackupDest st.occupied bd (pathStem src) (pathSuffix src)
        (st.occupied.length + 1) (bd ++ "/" ++ pathName src) 1 with
    | none => rw [hr] at h; cases h
    | some dest =>
      rw [hr] at h
      injection h with h2
      subst h2
      simp only [List.mem_append, List.mem_singleton] at he
      rcases he with h3 | h3
      · exact Or.inl h3
      · exact Or.inr ⟨src, dest, h3⟩
  · rw [if_neg hm] at h
    injection h with h2
    subst h2
    exact Or.inl he

/-- Every event accumulated by the backup-move fold is inherited or a
file move. -/
theorem backupFold_evs {bd : String} :
    ∀ (bins : List String) (st st' : MoveState),
      bins.foldlM (moveOneToBackup bd) st = some st' →
      ∀ e ∈ st'.evs, e ∈ st.evs ∨ ∃ s d, e = Ev.moveFile s d := by
  intro bins
  induction bins with
  | nil =>
    intro st st' h e he
    simp only [List.foldlM_nil] at h
    injection h with h2
    subst h2
    exact Or.inl he
  | cons b bs ih =>
    intro st st' h e he
    simp only [List.foldlM_cons] at h
    cases hm : moveOneToBackup bd st b with
    | none => rw [hm] at h; cases h
    | some st1 =>
      rw [hm] at h
      simp only [Option.bind_eq_bind, Option.some_bind] at h
      rcases ih st1 st' h e he with h1 | h2
      · exact moveOneToBackup_evs hm e h1
      · exact Or.inr h2

/-- Every event of `move_to_backup_folder` is a file move, never a
converter invocation. -/
theorem move_to_backup_folder_no_invoke (fs : FS) (p : String) :
    ∀ e ∈ (move_to_backup_folder fs p).getD [], e.isInvoke = false := by
  intro e he
  unfold move_to_backup_folder at he
  dsimp only at he
  cases h1 : (parse_cue_file fs p).foldlM
      (moveOneToBackup (parentDir p ++ "/original_backup"))
      ⟨fs.files.map (fun f => f.path), []⟩ with
  | none => rw [h1] at he; dsimp only at he; simp at he
  | some st1 =>
    rw [h1] at he
    dsimp only at he
    cases h2 : moveOneToBackup (parentDir p ++ "/original_backup") st1 p with
    | none => rw [h2] at he; simp at he
    | some st2 =>
      rw [h2] at he
      simp only [Option.getD_some] at he
      rcases moveOneToBackup_evs h2 e he with h3 | h3
      · rcases backupFold_evs (parse_cue_file fs p) _ st1 h1 e h3 with h4 | h4
        · simp at h4
        · rcases h4 with ⟨s, d, rfl⟩; rfl
      · rcases h3 with ⟨s, d, rfl⟩; rfl

/-- Claim C1, counterexample.  A job whose output CHD already exists
(skip-because-exists: `convert_to_chd` returns success with no converter
invocation) still executes postprocessing: with delete-originals enabled
the originals are deleted. -/
theorem C1_counterexample :
    convert_to_chd oracleAllOk exFSChd "dir/game.cue" = (true, []) ∧
    process_single_file oracleAllOk cfgDeleteOn exFSChd "dir/game.cue" =
      (some true, [Ev.deleteFile "dir/a.bin", Ev.deleteFile "dir/b.bin",
                   Ev.deleteFile "dir/game.cue"]) := by
  decide

/-- Claim C1, amended: postprocessing runs after every success return of
`convert_to_chd`, including skip-because-exists — for a job whose output
CHD already exists, the job reports success without invoking the
converter and the configured postprocessing (delete or move of the
originals) is still executed. -/
theorem C1_amended (conv : ConvOracle) (cfg : RunCfg) (fs : FS) (path : String)
    (hrun : cfg.is_converting = true)
    (hchd : fs.existsPath (with_suffix path ".chd") = true) :
    (process_single_file conv cfg fs path).1 = some true ∧
    (process_single_file conv cfg fs path).2 =
      (if cfg.delete_originals then delete_original_files fs path
       else if cfg.move_to_backup then (move_to_backup_folder fs path).getD []
       else []) := by
  unfold process_single_file
  rw [hrun, convert_to_chd_skip conv fs path hchd]
  simp

/-- Claim C1, amended, witness: the concrete skip-because-exists job with
delete-originals enabled. -/
theorem C1_witness :
    (cfgDeleteOn.is_converting = true ∧
     exFSChd.existsPath (with_suffix "dir/game.cue" ".chd") = true) ∧
    ((process_single_file oracleAllOk cfgDeleteOn exFSChd "dir/game.cue").1 = some true ∧
     (process_single_file oracleAllOk cfgDeleteOn exFSChd "dir/game.cue").2 =
       (if cfgDeleteOn.delete_originals then delete_original_files exFSChd "dir/game.cue"
        else if cfgDeleteOn.move_to_backup then
          (move_to_backup_folder exFSChd "dir/game.cue").getD []
        else [])) :=
  ⟨⟨by decide, by decide⟩,
   C1_amended oracleAllOk cfgDeleteOn exFSChd "dir/game.cue" (by decide) (by decide)⟩

/-- Claim C3: jobs whose derived output path already exists return a
success outcome immediately; submitting K such files yields K success
outcomes and the run's event trace contains no external-converter
invocation at all (any postprocessing events are deletes/moves). -/
theorem C3_already_converted_short_circuit (conv : ConvOracle) (cfg : RunCfg)
    (fs : FS) (files : List String)
    (hrun : cfg.is_converting = true)
    (hchd : ∀ f ∈ files, fs.existsPath (with_suffix f ".chd") = true) :
    (files.map fun f => (process_single_file conv cfg fs f).1) =
      files.map (fun _ => some true) ∧
    ∀ f ∈ files, ∀ e ∈ (process_single_file conv cfg fs f).2, e.isInvoke = false := by
  have hkey : ∀ f ∈ files,
      process_single_file conv cfg fs f =
        (some true,
         if cfg.delete_originals then delete_original_files fs f
         else if cfg.move_to_backup then (move_to_backup_folder fs f).getD []
         else []) := by
    intro f hf
    unfold process_single_file
    rw [hrun, convert_to_chd_skip conv fs f (hchd f hf)]
    simp
  constructor
  · apply List.map_congr_left
    intro f hf
    rw [hkey f hf]
  · intro f hf e he
    rw [hkey f hf] at he
    simp only at he
    by_cases hdel : cfg.delete_originals = true
    · rw [if_pos hdel] at he
      exact delete_original_files_no_invoke fs f e he
    · rw [if_neg hdel] at he
      by_cases hmv : cfg.move_to_backup = true
      · rw [if_pos hmv] at he
        exact move_to_backup_folder_no_invoke fs f e he
      · rw [if_neg hmv] at he
        cases he

/-- Second already-converted fixture: a PS2 descriptor with its CHD. -/
def exFS2Chd : FS :=
  ⟨[⟨"dir/game.cue", 100, exCueText⟩, ⟨"dir/a.bin", 500, ""⟩, ⟨"dir/b.bin", 600, ""⟩,
    ⟨"dir/game.chd", 50, ""⟩, ⟨"dir2/other.iso", 900, ""⟩, ⟨"dir2/other.chd", 40, ""⟩]⟩

/-- Claim C3, witness: two already-converted files (one cue, one iso)
under a valid move-to-backup configuration. -/
theorem C3_witness :
    (cfgMoveOn.is_converting = true ∧
     ∀ f ∈ ["dir/game.cue", "dir2/other.iso"],
       exFS2Chd.existsPath (with_suffix f ".chd") = true) ∧
    ((["dir/game.cue", "dir2/other.iso"].map fun f =>
        (process_single_file oracleAllOk cfgMoveOn exFS2Chd f).1) =
      ["dir/game.cue", "dir2/other.iso"].map (fun _ => some true) ∧
     ∀ f ∈ ["dir/game.cue", "dir2/other.iso"],
       ∀ e ∈ (process_single_file oracleAllOk cfgMoveOn exFS2Chd f).2,
         e.isInvoke = false) :=
  ⟨⟨by decide, by decide⟩,
   C3_already_converted_short_circuit oracleAllOk cfgMoveOn exFS2Chd
     ["dir/game.cue", "dir2/other.iso"] (by decide) (by decide)⟩

/-- Claim C8: the scanner returns exactly the descriptor files matching
the enabled kinds, in sorted (hence deterministic) path order; with no
kind enabled it returns the empty sequence (no error — the function is
total). -/
theorem C8_scanner_sorted_deterministic :
    (∀ (t : ScanRoot) (r ps1 ps2 : Bool),
        List.Sorted pathLeR (find_game_files t r ps1 ps2)) ∧
    (∀ (t : ScanRoot) (r : Bool), find_game_files t r false false = []) ∧
    (∀ (t : ScanRoot) (ps1 ps2 : Bool) (x : String),
        x ∈ find_game_files t true ps1 ps2 ↔
          x ∈ t.subtreeFiles ∧
            ((ps1 = true ∧ matchesExt x ".cue" = true) ∨
             (ps2 = true ∧ matchesExt x ".iso" = true))) ∧
    (∀ (t : ScanRoot) (r ps1 ps2 : Bool),
        (find_game_files t r ps1 ps2).Perm
          ((if ps1 then (sourceFiles t r).filter (fun p => matchesExt p ".cue") else []) ++
           (if ps2 then (sourceFiles t r).filter (fun p => matchesExt p ".iso") else []))) := by
  refine ⟨?_, ?_, ?_, ?_⟩
  · intro t r ps1 ps2
    exact List.sorted_insertionSort pathLeR _
  · intro t r
    rfl
  · intro t ps1 ps2 x
    cases ps1 <;> cases ps2 <;>
      simp [find_game_files, sourceFiles, List.mem_insertionSort, List.mem_filter,
        List.mem_append]
    tauto
  · intro t r ps1 ps2
    exact List.perm_insertionSort pathLeR _

/-- Claim C10: a file whose name ends in `.tar.gz` matches both the
`*.gz` and the `*.tar.gz` patterns, so `find_compressed_files` returns
its path at least twice and `extract_all_archives` attempts to extract it
at least twice in a single run. -/
theorem C10_targz_discovered_twice (t : ScanRoot) (r : Bool) (w : String)
    (hext : matchesExt w ".tar.gz" = true)
    (hmem : w ∈ sourceFiles t r) :
    2 ≤ (find_compressed_files t r).count w ∧
    2 ≤ (extract_all_archives t r).count (Ev.extractArchive w) := by
  have hgz : matchesExt w ".gz" = true := by
    unfold matchesExt at hext ⊢
    have h1 : ".gz".data <:+ ".tar.gz".data := by decide
    exact List.isSuffixOf_iff_suffix.mpr
      (h1.trans (List.isSuffixOf_iff_suffix.mp hext))
  have hcount : 2 ≤ (find_compressed_files t r).count w := by
    unfold find_compressed_files
    rw [(List.perm_insertionSort pathLeR _).count_eq]
    simp only [COMPRESSED_EXTENSIONS, List.flatMap_cons, List.flatMap_nil,
      List.append_nil, List.count_append]
    have h1 : (((sourceFiles t r).filter (fun p => matchesExt p ".gz")).count w) =
        (sourceFiles t r).count w := List.count_filter hgz
    have h2 : (((sourceFiles t r).filter (fun p => matchesExt p ".tar.gz")).count w) =
        (sourceFiles t r).count w := List.count_filter hext
    have h3 : 0 < (sourceFiles t r).count w := List.count_pos_iff.mpr hmem
    omega
  refine ⟨hcount, ?_⟩
  unfold extract_all_archives
  rw [List.count_map_of_injective _ Ev.extractArchive
    (fun a b h => by injection h) w]
  exact hcount

/-- Claim C10, witness: a root holding `r/x.tar.gz`. -/
theorem C10_witness :
    (matchesExt "r/x.tar.gz" ".tar.gz" = true ∧
     "r/x.tar.gz" ∈ sourceFiles exRoot true) ∧
    (2 ≤ (find_compressed_files exRoot true).count "r/x.tar.gz" ∧
     2 ≤ (extract_all_archives exRoot true).count (Ev.extractArchive "r/x.tar.gz")) :=
  ⟨⟨by decide, by decide⟩,
   C10_targz_discovered_twice exRoot true "r/x.tar.gz" (by decide) (by decide)⟩

/-- Claim C2, counterexample.  The descriptor references three auxiliary
files of which two exist: the resolver returns two entries (the existing
ones), not three entries with one marked absent — the missing reference
is logged and omitted. -/
theorem C2_counterexample :
    findallCueEntries exCueText = ["a.bin", "b.bin", "c.bin"] ∧
    parse_cue_file exFS "dir/game.cue" = ["dir/a.bin", "dir/b.bin"] ∧
    (parse_cue_file exFS "dir/game.cue").length ≠ 3 := by
  decide

/-- Length of a filter-style `filterMap` counted over the mapped list. -/
theorem length_filterMap_filter {α β : Type} (l : List α) (g : α → β) (p : β → Bool) :
    (l.filterMap (fun m => if p (g m) then some (g m) else none)).length =
      (l.map g).countP p := by
  induction l with
  | nil => rfl
  | cons a l ih =>
    simp only [List.filterMap_cons, List.map_cons, List.countP_cons]
    by_cases h : p (g a) = true
    · rw [if_pos h]
      simp [h, ih]
    · rw [if_neg h]
      simp [h, ih]

/-- Claim C2, amended: the resolver returns one entry per referenced
filename that resolves to an existing file — a missing reference
produces no entry at all rather than an absent marker — every returned
entry names an existing file, and the job still proceeds to conversion
(the converter is invoked whether or not references were missing). -/
theorem C2_amended (fs : FS) (cue_path : String) :
    ((parse_cue_file fs cue_path).length =
      ((findallCueEntries (fs.textOf cue_path)).map
        (fun m => joinPath (parentDir cue_path) m)).countP (fun b => fs.existsPath b)) ∧
    (∀ b ∈ parse_cue_file fs cue_path, fs.existsPath b = true) ∧
    (∀ conv : ConvOracle,
        fs.existsPath (with_suffix cue_path ".chd") = false →
        suffixLower cue_path = ".cue" →
        Ev.invoke "createcd" cue_path (with_suffix cue_path ".chd") ∈
          (convert_to_chd conv fs cue_path).2) := by
  refine ⟨?_, ?_, ?_⟩
  · unfold parse_cue_file
    exact length_filterMap_filter (findallCueEntries (fs.textOf cue_path))
      (fun m => joinPath (parentDir cue_path) m) (fun b => fs.existsPath b)
  · intro b hb
    unfold parse_cue_file at hb
    rcases List.mem_filterMap.mp hb with ⟨m, _, hsome⟩
    by_cases h : fs.existsPath (joinPath (parentDir cue_path) m) = true
    · rw [if_pos h] at hsome
      injection hsome with h2
      subst h2
      exact h
    · rw [if_neg h] at hsome
      cases hsome
  · intro conv h1 h2
    unfold convert_to_chd
    simp only [h1, h2, Bool.false_eq_true, if_false, if_pos]
    cases conv cue_path <;> simp

/-- Claim C2, amended, witness at the concrete three-reference
descriptor. -/
theorem C2_witness :
    ((parse_cue_file exFS "dir/game.cue").length =
      ((findallCueEntries (exFS.textOf "dir/game.cue")).map
        (fun m => joinPath (parentDir "dir/game.cue") m)).countP
          (fun b => exFS.existsPath b)) ∧
    exFS.existsPath "dir/a.bin" = true ∧
    (exFS.existsPath (with_suffix "dir/game.cue" ".chd") = false ∧
     suffixLower "dir/game.cue" = ".cue" ∧
     Ev.invoke "createcd" "dir/game.cue" (with_suffix "dir/game.cue" ".chd") ∈
       (convert_to_chd oracleAllOk exFS "dir/game.cue").2) :=
  ⟨(C2_amended exFS "dir/game.cue").1,
   (C2_amended exFS "dir/game.cue").2.1 "dir/a.bin" (by decide),
   by decide, by decide,
   (C2_amended exFS "dir/game.cue").2.2 oracleAllOk (by decide) (by decide)⟩

/-- Claim C6, counterexample.  One job was dispatched (its worker
observed the flag up and produced a success outcome), but the collection
loop observed cancellation before consuming that completion: the tally is
(0, 0), not an outcome for "exactly the dispatched subset". -/
theorem C6_counterexample :
    (process_single_file oracleAllOk cfgMoveOn exFSChd "dir/game.cue").1 = some true ∧
    conversion_tally
      [((process_single_file oracleAllOk cfgMoveOn exFSChd "dir/game.cue").1, false)] =
      (0, 0) := by
  decide

/-- Claim C6, amended: the tally counts exactly the dispatched jobs whose
completions are consumed before the loop observes cancellation (the
longest all-flag-up iteration run); a job that observes cancellation
before starting is never started — it produces no outcome, no events, and
is never counted as Failed. -/
theorem C6_amended :
    (∀ evts : List (Option Bool × Bool),
        conversion_tally evts =
          ((evts.takeWhile (fun e => e.2)).countP (fun e => e.1 == some true),
           (evts.takeWhile (fun e => e.2)).countP (fun e => e.1 == some false))) ∧
    (∀ (conv : ConvOracle) (cfg : RunCfg) (fs : FS) (f : String),
        cfg.is_converting = false →
        process_single_file conv cfg fs f = (none, [])) := by
  constructor
  · intro evts
    induction evts with
    | nil => rfl
    | cons p rest ih =>
      obtain ⟨res, flag⟩ := p
      cases flag
      · simp [conversion_tally, List.takeWhile]
      · cases res with
        | none => simp [conversion_tally, List.takeWhile, List.countP_cons, ih]
        | some b =>
          cases b <;>
            simp [conversion_tally, List.takeWhile, List.countP_cons, ih]
  · intro conv cfg fs f h
    unfold process_single_file
    rw [h]
    rfl

/-- Claim C6, amended, witness: a dispatched success consumed before
cancellation is counted; one consumed after is dropped; a stopped worker
never starts. -/
theorem C6_witness :
    cfgStopped.is_converting = false ∧
    process_single_file oracleAllOk cfgStopped exFSChd "dir/game.cue" = (none, []) ∧
    conversion_tally [(some true, true), (some true, false)] =
      (([((some true : Option Bool), true), ((some true : Option Bool), false)].takeWhile
          (fun e => e.2)).countP (fun e => e.1 == some true),
       ([((some true : Option Bool), true), ((some true : Option Bool), false)].takeWhile
          (fun e => e.2)).countP (fun e => e.1 == some false)) :=
  ⟨by decide,
   C6_amended.2 oracleAllOk cfgStopped exFSChd "dir/game.cue" (by decide),
   C6_amended.1 [(some true, true), (some true, false)]⟩

/-- Claim C7: destination collisions for CHD moves/copies and for
original-file backup moves are resolved by an incrementing numeric
suffix, and a resolved destination never names an occupied path (no
silent overwrite); concretely, moving two files that both clean to
`Game.chd` into one destination yields `Game.chd` and `Game (1).chd`. -/
theorem C7_collision_suffix_no_overwrite :
    (∀ (occupied : List String) (dest_dir new_name : String) (fuel : Nat)
        (dest : String) (counter : Nat) (d : String),
        resolveChdDest occupied dest_dir new_name fuel dest counter = some d →
        d ∉ occupied ∧
          (d = dest ∨
            ∃ k, counter ≤ k ∧ d = parenDest dest_dir (rsplitDotHead new_name) k)) ∧
    (∀ (occupied : List String) (backup_dir stem sfx : String) (fuel : Nat)
        (dest : String) (counter : Nat) (d : String),
        resolveBackupDest occupied backup_dir stem sfx fuel dest counter = some d →
        d ∉ occupied ∧
          (d = dest ∨ ∃ k, counter ≤ k ∧ d = underscoreDest backup_dir stem sfx k)) ∧
    execute_move true false "dest" ["A/Game (USA).chd", "B/Game (Europe).chd"]
      ["A/Game (USA).chd", "B/Game (Europe).chd"] =
      some [Ev.moveFile "A/Game (USA).chd" "dest/Game.chd",
            Ev.moveFile "B/Game (Europe).chd" "dest/Game (1).chd"] := by
  refine ⟨?_, ?_, by decide⟩
  · intro occupied dest_dir new_name fuel
    induction fuel with
    | zero => intro dest counter d h; cases h
    | succ n ih =>
      intro dest counter d h
      unfold resolveChdDest at h
      by_cases hm : dest ∈ occupied
      · rw [if_pos hm] at h
        rcases ih (parenDest dest_dir (rsplitDotHead new_name) counter) (counter + 1) d h
          with ⟨h1, h2⟩
        refine ⟨h1, Or.inr ?_⟩
        rcases h2 with h3 | ⟨k, hk, h4⟩
        · exact ⟨counter, le_refl _, h3⟩
        · exact ⟨k, Nat.le_of_succ_le hk, h4⟩
      · rw [if_neg hm] at h
        injection h with h2
        subst h2
        exact ⟨hm, Or.inl rfl⟩
  · intro occupied backup_dir stem sfx fuel
    induction fuel with
    | zero => intro dest counter d h; cases h
    | succ n ih =>
      intro dest counter d h
      unfold resolveBackupDest at h
      by_cases hm : dest ∈ occupied
      · rw [if_pos hm] at h
        rcases ih (underscoreDest backup_dir stem sfx counter) (counter + 1) d h
          with ⟨h1, h2⟩
        refine ⟨h1, Or.inr ?_⟩
        rcases h2 with h3 | ⟨k, hk, h4⟩
        · exact ⟨counter, le_refl _, h3⟩
        · exact ⟨k, Nat.le_of_succ_le hk, h4⟩
      · rw [if_neg hm] at h
        injection h with h2
        subst h2
        exact ⟨hm, Or.inl rfl⟩

/-- Claim C7, witness: the collision resolver at a concrete occupied
destination picks the `(1)`-suffixed fresh name. -/
theorem C7_witness :
    (resolveChdDest ["dest/Game.chd"] "dest" "Game.chd" 2 "dest/Game.chd" 1 =
      some "dest/Game (1).chd") ∧
    ("dest/Game (1).chd" ∉ ["dest/Game.chd"] ∧
      ("dest/Game (1).chd" = "dest/Game.chd" ∨
        ∃ k, 1 ≤ k ∧
          "dest/Game (1).chd" = parenDest "dest" (rsplitDotHead "Game.chd") k)) :=
  ⟨by decide,
   C7_collision_suffix_no_overwrite.1 ["dest/Game.chd"] "dest" "Game.chd" 2
     "dest/Game.chd" 1 "dest/Game (1).chd" (by decide)⟩

end RomConverter
